import Mathlib

/-!
Shallow embedding of `tools/validate_skills.py`: the skill validation and
script-contract enforcement engine.  Python strings are modelled as `String`
(names also as `List Char` where character-level reasoning is needed),
subprocess results as an explicit `ProcResult` value produced by an oracle
function `List String → ProcResult` standing for `run_entry_script`, and the
JSON values parsed from a script's stdout as an inductive `Json` type.
Issue messages built by Python f-strings are modelled as a structured `Msg`
type whose constructors carry the interpolated data.
-/

/-- `EXIT_PRECONDITION = 3` (validate_skills.py line 21). -/
def EXIT_PRECONDITION : Int := 3

/-- `MAX_DESCRIPTION_LENGTH = 500` (line 22). -/
def MAX_DESCRIPTION_LENGTH : Nat := 500

/-- `MAX_NAME_LENGTH = 64` (line 23). -/
def MAX_NAME_LENGTH : Nat := 64

/-- Membership in the regex character class `[a-z0-9]`. -/
def isNameClassChar (c : Char) : Bool :=
  ('a' ≤ c && c ≤ 'z') || ('0' ≤ c && c ≤ '9')

mutual

/-- Recognizer for the anchored body of `AGENT_SKILLS_NAME_RE`
(`^[a-z0-9]+(?:-[a-z0-9]+)*$`, line 20): a nonempty `[a-z0-9]` group,
then zero or more `-`-separated nonempty groups, consuming the whole input.
The alternatives are disjoint (`[a-z0-9]` never contains `-`), so this
deterministic recognizer decides the regex. -/
def nameReGroups : List Char → Bool
  | [] => false
  | c :: rest => isNameClassChar c && nameReAfter rest

/-- State after at least one `[a-z0-9]` character of the current group:
either the input ends, the group continues, or a new `-`-led group starts. -/
def nameReAfter : List Char → Bool
  | [] => true
  | c :: rest =>
    if isNameClassChar c then nameReAfter rest
    else if c = '-' then nameReGroups rest
    else false

end

/-- Python `re.match` with a `$` anchor also succeeds when the match ends just
before a single trailing newline; `AGENT_SKILLS_NAME_RE.match(name)` (line 30)
therefore accepts the regex body optionally followed by one `'\n'`. -/
def agentSkillsNameMatch (cs : List Char) : Bool :=
  nameReGroups cs ||
    (match cs.getLast? with
     | some c => c = '\n' && nameReGroups cs.dropLast
     | none => false)

/-- Python `"--" in name` (line 34): some two adjacent characters are both
hyphens. -/
def hasConsecHyphens : List Char → Bool
  | [] => false
  | [_] => false
  | a :: b :: rest => (a = '-' && b = '-') || hasConsecHyphens (b :: rest)

/-- JSON-validation failure strings produced by `validate_json_stdout`
(lines 181-194), modelled structurally. -/
inductive JsonErr where
  | emptyStdout
  | invalidJson (exc : String)
  | notAnObject
  | missingKey (k : String)
  | wrongType (k : String)
deriving DecidableEq, Repr

/-- Issue message strings, modelled structurally: each constructor stands for
one message format string of validate_skills.py and carries its interpolated
data. -/
inductive Msg where
  | nameLength
  | nameRegex
  | nameConsecHyphens
  | fmError (err : String)
  | missingName
  | nameDirMismatch (name dir : String)
  | duplicateName (name firstPath : String)
  | missingDescription
  | emptyDescription
  | multilineDescription
  | longDescription
  | missingReferences
  | emptyReferences
  | emptyAssets
  | scriptsWithoutRun
  | missingTestFile (fname : String)
  | helpFailed (rc : Int) (stderr : String)
  | jsonValidationFailed (err : JsonErr) (stderr : String)
  | dryRunChanged
  | unexpectedExit (rc : Int)
  | exitZeroOkNotTrue
  | exitPreconditionOkNotFalse
deriving DecidableEq, Repr

/-- `validate_skill_name` (lines 26-36). -/
def validate_skill_name (name : String) : Option Msg :=
  if ¬(1 ≤ name.length ∧ name.length ≤ MAX_NAME_LENGTH) then some Msg.nameLength
  else if ¬agentSkillsNameMatch name.toList then some Msg.nameRegex
  else if hasConsecHyphens name.toList then some Msg.nameConsecHyphens
  else none

/-- Python whitespace for `str.strip()`. -/
def isPyWhitespace (c : Char) : Bool :=
  c = ' ' || c = '\t' || c = '\n' || c = '\r' || c = '\x0B' || c = '\x0C'

/-- Python `s.strip()`: remove leading and trailing whitespace. -/
def pyStrip (s : String) : String :=
  ⟨((s.data.dropWhile isPyWhitespace).reverse.dropWhile isPyWhitespace).reverse⟩

/-- `test_filename_for_skill` (lines 39-41): Python
`f"test_{name.replace('-', '_')}.py"`; a single-character `str.replace` is a
per-character map. -/
def test_filename_for_skill (name : String) : String :=
  "test_" ++ String.mk (name.data.map (fun c => if c = '-' then '_' else c)) ++ ".py"

/-- `Issue` dataclass (lines 44-50). -/
structure Issue where
  level : String
  path : String
  message : Msg
deriving DecidableEq, Repr

/-- `SkillReport` dataclass (lines 53-62). -/
structure SkillReport where
  skill_dir : String
  tier : String
  name : Option String
  description : Option String
  script_backed : Bool
  issues : List Issue
deriving DecidableEq, Repr

/-- Index of the first element satisfying `p`: the scan
`for i in range(1, len(lines)): ... break` of lines 71-74, run on the tail. -/
def find_delim_idx (p : String → Bool) : List String → Option Nat
  | [] => none
  | l :: rest => if p l then some 0 else (find_delim_idx p rest).map (fun i => i + 1)

/-- `extract_frontmatter_text` (lines 65-78).  Returns
`(frontmatter text, error string)`; `"\n".join(lines[1:end_idx])` is
`intercalate` over the scanned prefix of the tail. -/
def extract_frontmatter_text (lines : List String) : Option String × Option String :=
  match lines with
  | [] => (none, some "missing YAML frontmatter start line ---")
  | l0 :: rest =>
    if pyStrip l0 = "---" then
      match find_delim_idx (fun l => pyStrip l == "---") rest with
      | some i => (some ("\n".intercalate (rest.take i)), none)
      | none => (none, some "missing YAML frontmatter end line ---")
    else (none, some "missing YAML frontmatter start line ---")

/-- Modelled from the spec: section 4.1 says "first non-empty line must be a
delimiter (`---`); scan forward for the next delimiter line; the text between
is the front-matter block".  This predicate holds exactly when extraction
should succeed according to those words (a line is non-empty when it does not
strip to the empty string). -/
def extract_frontmatter_spec_succeeds (lines : List String) : Bool :=
  match lines.dropWhile (fun l => pyStrip l == "") with
  | [] => false
  | l0 :: rest => pyStrip l0 == "---" && rest.any (fun l => pyStrip l == "---")

/-- Values produced by `json.loads` on a script's stdout. -/
inductive Json where
  | null
  | bool (b : Bool)
  | str (s : String)
  | num (n : Int)
  | arr (xs : List Json)
  | obj (kvs : List (String × Json))

/-- Outcome of reading a subprocess's stdout, abstracting the Python string:
it strips to empty, it is not valid JSON (`json.loads` raised, carrying the
exception text), or it parses to a JSON value. -/
inductive Stdout where
  | blank
  | invalid (exc : String)
  | parsed (v : Json)

/-- `subprocess.CompletedProcess` as used by the validator (returncode,
stdout, stderr). -/
structure ProcResult where
  returncode : Int
  stdout : Stdout
  stderr : String

/-- Python `obj.get(k)` on a parsed JSON object. -/
def objGet (kvs : List (String × Json)) (k : String) : Option Json :=
  (kvs.find? (fun kv => kv.1 == k)).map (fun kv => kv.2)

/-- `obj is not None and obj.get(k)` chained lookup. -/
def objGetOpt (obj : Option (List (String × Json))) (k : String) : Option Json :=
  obj.bind (fun kvs => objGet kvs k)

/-- Python `x is True` on a JSON lookup result. -/
def jsonIsTrue : Option Json → Bool
  | some (Json.bool true) => true
  | _ => false

/-- Python `x is False` on a JSON lookup result. -/
def jsonIsFalse : Option Json → Bool
  | some (Json.bool false) => true
  | _ => false

/-- The expected key/type list `[("ok", bool), ("summary", str), ("changed", bool)]`
(line 190); `true` marks a `bool`-typed key, `false` a `str`-typed key. -/
def keyTypeIsBool : List (String × Bool) := [("ok", true), ("summary", false), ("changed", true)]

/-- `isinstance(obj[key], typ)` for the two types appearing in line 190. -/
def keyTypeOk (v : Json) (isBool : Bool) : Bool :=
  match v, isBool with
  | Json.bool _, true => true
  | Json.str _, false => true
  | _, _ => false

/-- The `for key, typ in [...]` loop of lines 190-194: first missing or
mistyped required key, if any. -/
def check_required_keys (kvs : List (String × Json)) : List (String × Bool) → Option JsonErr
  | [] => none
  | (k, t) :: rest =>
    match objGet kvs k with
    | none => some (JsonErr.missingKey k)
    | some v => if keyTypeOk v t then check_required_keys kvs rest else some (JsonErr.wrongType k)

/-- `validate_json_stdout` (lines 177-195). -/
def validate_json_stdout (out : Stdout) : Option (List (String × Json)) × Option JsonErr :=
  match out with
  | Stdout.blank => (none, some JsonErr.emptyStdout)
  | Stdout.invalid exc => (none, some (JsonErr.invalidJson exc))
  | Stdout.parsed (Json.obj kvs) =>
    (match check_required_keys kvs keyTypeIsBool with
     | some e => (none, some e)
     | none => (some kvs, none))
  | Stdout.parsed _ => (none, some JsonErr.notAnObject)

/-- Arguments of the first `run_entry_script` call (line 316). -/
def HELP_ARGS : List String := ["--help"]

/-- Arguments of the second `run_entry_script` call (lines 329-333):
`["--json", "--cwd", str(repo_root)]`. -/
def json_run_args (repo_root : String) : List String := ["--json", "--cwd", repo_root]

/-- `validate_exec_mode` (lines 310-374), parameterized by an oracle standing
for `run_entry_script`.  Returns the issues it appends together with the
argument lists of the subprocess invocations it performed. -/
def validate_exec_mode (oracle : List String → ProcResult) (entry : String)
    (repo_root : String) : List Issue × List (List String) :=
  let proc_help := oracle HELP_ARGS
  let issues0 : List Issue :=
    if proc_help.returncode ≠ 0 then
      [⟨"error", entry, Msg.helpFailed proc_help.returncode (proc_help.stderr.take 400)⟩]
    else []
  let proc_json := oracle (json_run_args repo_root)
  let calls := [HELP_ARGS, json_run_args repo_root]
  match validate_json_stdout proc_json.stdout with
  | (_, some err) =>
    (issues0 ++ [⟨"error", entry, Msg.jsonValidationFailed err (proc_json.stderr.take 400)⟩],
     calls)
  | (obj, none) =>
    let i1 : List Issue :=
      if jsonIsTrue (objGetOpt obj "changed") then [⟨"error", entry, Msg.dryRunChanged⟩] else []
    let i2 : List Issue :=
      if proc_json.returncode ≠ 0 ∧ proc_json.returncode ≠ EXIT_PRECONDITION then
        [⟨"error", entry, Msg.unexpectedExit proc_json.returncode⟩]
      else []
    let i3 : List Issue :=
      if proc_json.returncode = 0 ∧ obj.isSome ∧ ¬jsonIsTrue (objGetOpt obj "ok") then
        [⟨"error", entry, Msg.exitZeroOkNotTrue⟩]
      else []
    let i4 : List Issue :=
      if proc_json.returncode = EXIT_PRECONDITION ∧ obj.isSome ∧ ¬jsonIsFalse (objGetOpt obj "ok") then
        [⟨"error", entry, Msg.exitPreconditionOkNotFalse⟩]
      else []
    (issues0 ++ i1 ++ i2 ++ i3 ++ i4, calls)

/-- The `ok` value a `--json` run reported, when its stdout validated to an
object: `obj.get("ok")` of `validate_json_stdout`'s result. -/
def reported_ok (out : Stdout) : Option Json :=
  match (validate_json_stdout out).1 with
  | some kvs => objGet kvs "ok"
  | none => none

/-- Observable result of `parse_frontmatter_block` (lines 126-138): declared
name, declared description, and the parse error string if any (the raw
mapping, ignored by `validate_metadata`, is dropped).  File reading and YAML
parsing are external effects, so this outcome is an input of the model. -/
structure ParseOutcome where
  name : Option String
  desc : Option String
  fmErr : Option String

/-- `validate_metadata` (lines 203-257): returns the issues it appends, the
updated `seen_names` accumulator (modelled as an association list
name ↦ first skill directory), and the `(name, desc)` pair it returns. -/
def validate_metadata (pres : ParseOutcome) (skill_md : String) (dir_name : String)
    (skill_dir : String) (seen_names : List (String × String)) :
    List Issue × List (String × String) × Option String × Option String :=
  let issuesA : List Issue :=
    match pres.fmErr with
    | some e => [⟨"error", skill_md, Msg.fmError e⟩]
    | none => []
  let nb : List Issue × List (String × String) :=
    match pres.name with
    | none => (issuesA ++ [⟨"error", skill_md, Msg.missingName⟩], seen_names)
    | some n =>
      let iMismatch : List Issue :=
        if n ≠ dir_name then [⟨"error", skill_md, Msg.nameDirMismatch n dir_name⟩] else []
      let iName : List Issue :=
        match validate_skill_name n with
        | some m => [⟨"error", skill_md, m⟩]
        | none => []
      match seen_names.lookup n with
      | some p =>
        (issuesA ++ iMismatch ++ iName ++ [⟨"error", skill_md, Msg.duplicateName n p⟩],
         seen_names)
      | none => (issuesA ++ iMismatch ++ iName, (n, skill_dir) :: seen_names)
  let issuesC : List Issue :=
    match pres.desc with
    | none => nb.1 ++ [⟨"error", skill_md, Msg.missingDescription⟩]
    | some d =>
      nb.1
        ++ (if pyStrip d = "" then [⟨"error", skill_md, Msg.emptyDescription⟩] else [])
        ++ (if d.data.contains '\n' then [⟨"warning", skill_md, Msg.multilineDescription⟩] else [])
        ++ (if d.length > MAX_DESCRIPTION_LENGTH then [⟨"warning", skill_md, Msg.longDescription⟩] else [])
  (issuesC, nb.2, pres.name, pres.desc)

/-- `validate_directories` (lines 260-286), on the filesystem facts it reads. -/
def validate_directories (refsDirExists refsNonempty assetsExists assetsNonempty : Bool)
    (skill_dir : String) : List Issue :=
  (if ¬refsDirExists then [⟨"warning", skill_dir, Msg.missingReferences⟩]
   else if ¬refsNonempty then [⟨"warning", skill_dir ++ "/references", Msg.emptyReferences⟩]
   else [])
  ++ (if assetsExists ∧ ¬assetsNonempty then [⟨"warning", skill_dir ++ "/assets", Msg.emptyAssets⟩]
      else [])

/-- `validate_tests` (lines 289-307); `testFileExists` tells whether a given
file name exists under `repo_root/tests/skills`, and `entry` whether the skill
has an entry script (`entry is None` in the source). -/
def validate_tests (testFileExists : String → Bool) (repo_root tier dir_name : String)
    (entry : Bool) : List Issue :=
  if entry = false then []
  else
    let fname := test_filename_for_skill dir_name
    if testFileExists fname then []
    else
      [⟨if tier = ".curated" then "error" else "warning",
        repo_root ++ "/tests/skills/" ++ fname, Msg.missingTestFile fname⟩]

/-- The `--mode` choices (lines 473-477). -/
inductive Mode where
  | fast
  | exec
deriving DecidableEq, Repr

/-- One discovered skill directory together with the filesystem and subprocess
facts the validator observes about it: the parse outcome of its SKILL.md, the
directory-existence booleans, and the behaviour of its entry script as an
oracle standing for `run_entry_script`. -/
structure SkillInput where
  dirPath : String
  dirName : String
  tier : String
  parse : ParseOutcome
  refsDirExists : Bool
  refsNonempty : Bool
  assetsExists : Bool
  assetsNonempty : Bool
  scriptsDirExists : Bool
  entryExists : Bool
  oracle : List String → ProcResult

/-- The name a skill declares in its frontmatter. -/
def declaredName (s : SkillInput) : Option String := s.parse.name

/-- `skill_dir / "scripts" / "run.py"` (line 157). -/
def entry_script_path (s : SkillInput) : String := s.dirPath ++ "/scripts/run.py"

/-- `validate_skill_dir` (lines 386-423): returns the report, the updated
`seen_names` accumulator, and the argument lists of subprocess invocations. -/
def validate_skill_dir (testFileExists : String → Bool) (repo_root : String) (mode : Mode)
    (s : SkillInput) (seen_names : List (String × String)) :
    SkillReport × List (String × String) × List (List String) :=
  let skill_md := s.dirPath ++ "/SKILL.md"
  let md := validate_metadata s.parse skill_md s.dirName s.dirPath seen_names
  let dIssues :=
    validate_directories s.refsDirExists s.refsNonempty s.assetsExists s.assetsNonempty s.dirPath
  let sIssues : List Issue :=
    if s.scriptsDirExists ∧ ¬s.entryExists then
      [⟨"error", s.dirPath ++ "/scripts", Msg.scriptsWithoutRun⟩]
    else []
  let tIssues := validate_tests testFileExists repo_root s.tier s.dirName s.entryExists
  let ex :=
    if mode = Mode.exec ∧ s.entryExists then
      validate_exec_mode s.oracle (entry_script_path s) repo_root
    else ([], [])
  (⟨s.dirPath, s.tier, md.2.2.1, md.2.2.2, s.entryExists,
    md.1 ++ dIssues ++ sIssues ++ tIssues ++ ex.1⟩,
   md.2.1, ex.2)

/-- `count_issues` (lines 426-436): the two nested `for` loops incrementing
`total_errors` / `total_warnings`. -/
def count_issues (reports : List SkillReport) : Nat × Nat :=
  reports.foldl
    (fun acc r =>
      r.issues.foldl
        (fun a i => if i.level == "error" then (a.1 + 1, a.2) else (a.1, a.2 + 1)) acc)
    (0, 0)

/-- The report-building list comprehension of `main` (lines 500-509): validate
each discovered skill in order, threading the shared `seen_names` accumulator,
and collect reports and subprocess argument lists. -/
def processSkills (testFileExists : String → Bool) (repo_root : String) (mode : Mode) :
    List SkillInput → List (String × String) →
    List SkillReport × List (String × String) × List (List String)
  | [], seen => ([], seen, [])
  | s :: rest, seen =>
    let r1 := validate_skill_dir testFileExists repo_root mode s seen
    let r2 := processSkills testFileExists repo_root mode rest r1.2.1
    (r1.1 :: r2.1, r2.2.1, r1.2.2 ++ r2.2.2)

/-- Path order on discovered skills: `sorted(...)` on `pathlib` paths compares
their string forms. -/
def pathLe (a b : SkillInput) : Prop := a.dirPath ≤ b.dirPath

instance : DecidableRel pathLe :=
  fun a b => inferInstanceAs (Decidable (a.dirPath ≤ b.dirPath))

/-- `sorted(iter_skill_dirs(skills_root))` (line 508). -/
def sortSkills (l : List SkillInput) : List SkillInput := List.insertionSort pathLe l

/-- The parsed CLI flags of `main` (lines 464-489). -/
structure Args where
  mode : Mode
  json_out : Bool
  fail_on_warn : Bool

/-- The `summary` dict of `main` (lines 512-518). -/
structure Summary where
  ok : Bool
  skills_checked : Nat
  errors : Nat
  warnings : Nat
  mode : Mode
deriving DecidableEq, Repr

/-- Environment of one run: whether the resolved skills root exists, the skill
directories `iter_skill_dirs` yields (in arbitrary filesystem order), the
contents of the companion-test directory, and the repository root path. -/
structure RunEnv where
  skillsRootExists : Bool
  discovered : List SkillInput
  testFileExists : String → Bool
  repoRoot : String

/-- Observable outcome of `main` (lines 462-526): process exit code, the
emitted report (`none` when the run aborts before `emit_report`), and the
per-skill reports that were processed. -/
structure MainOutcome where
  exitCode : Int
  emitted : Option (Summary × List SkillReport)
  processed : List SkillReport
deriving DecidableEq, Repr

/-- `main` (lines 462-526); named `validate_skills_main` because Lean reserves
the name `main` for executable entry points. -/
def validate_skills_main (env : RunEnv) (args : Args) : MainOutcome :=
  if env.skillsRootExists = false then ⟨2, none, []⟩
  else
    let reports :=
      (processSkills env.testFileExists env.repoRoot args.mode (sortSkills env.discovered) []).1
    let counts := count_issues reports
    let summary : Summary :=
      ⟨decide (counts.1 = 0) && (!args.fail_on_warn || decide (counts.2 = 0)),
       reports.length, counts.1, counts.2, args.mode⟩
    let exit : Int :=
      if counts.1 > 0 then 1
      else if args.fail_on_warn ∧ counts.2 > 0 then 1
      else 0
    ⟨exit, some (summary, reports), reports⟩

/-- Directory path of the first skill in the list declaring name `n` (the one
the `seen_names` accumulator registers for `n`). -/
def firstDeclaringPath (n : String) : List SkillInput → Option String
  | [] => none
  | s :: rest => if declaredName s = some n then some s.dirPath else firstDeclaringPath n rest

/-- Oracle of a compliant-looking script whose dry run reports
`changed: true`. -/
def dryRunDemoOracle : List String → ProcResult :=
  fun _ => ⟨0, Stdout.parsed (Json.obj
    [("ok", Json.bool true), ("summary", Json.str "did things"), ("changed", Json.bool true)]),
    ""⟩

/-- A concrete script-backed skill whose dry run reports `changed: true`. -/
def dryRunDemoSkill : SkillInput :=
  ⟨"skills/.curated/demo", "demo", ".curated", ⟨some "demo", some "a demo", none⟩,
    true, true, false, false, true, true, dryRunDemoOracle⟩

/-- First of two concrete skills declaring the same name. -/
def dupSkillA : SkillInput :=
  ⟨"skills/.curated/dup-one", "dup-one", ".curated", ⟨some "dup-one", none, none⟩,
    true, true, false, false, false, false, fun _ => ⟨0, Stdout.blank, ""⟩⟩

/-- Second concrete skill declaring the same name as `dupSkillA`. -/
def dupSkillB : SkillInput :=
  ⟨"skills/.exp/dup-one", "dup-one", ".exp", ⟨some "dup-one", none, none⟩,
    true, true, false, false, false, false, fun _ => ⟨0, Stdout.blank, ""⟩⟩

/-! ### Helper lemmas -/

lemma isNameClassChar_ne_hyphen {c : Char} (h : isNameClassChar c = true) : c ≠ '-' := by
  intro hc
  rw [hc] at h
  exact absurd h (by decide)

lemma hasConsecHyphens_cons_of_ne {c : Char} (rest : List Char) (hc : c ≠ '-') :
    hasConsecHyphens (c :: rest) = hasConsecHyphens rest := by
  cases rest with
  | nil => simp [hasConsecHyphens]
  | cons b r2 => simp [hasConsecHyphens, hc]

lemma nameRe_no_consec (cs : List Char) :
    (nameReGroups cs = true → hasConsecHyphens cs = false) ∧
    (nameReAfter cs = true → hasConsecHyphens cs = false) := by
  induction cs with
  | nil => exact ⟨fun _ => rfl, fun _ => rfl⟩
  | cons c rest ih =>
    constructor
    · intro h
      simp only [nameReGroups, Bool.and_eq_true] at h
      rw [hasConsecHyphens_cons_of_ne rest (isNameClassChar_ne_hyphen h.1)]
      exact ih.2 h.2
    · intro h
      simp only [nameReAfter] at h
      by_cases hcl : isNameClassChar c = true
      · rw [if_pos hcl] at h
        rw [hasConsecHyphens_cons_of_ne rest (isNameClassChar_ne_hyphen hcl)]
        exact ih.2 h
      · rw [if_neg hcl] at h
        by_cases hhy : c = '-'
        · rw [if_pos hhy] at h
          cases rest with
          | nil => exact absurd h (by decide)
          | cons b r2 =>
            have hb : isNameClassChar b = true := by
              simp only [nameReGroups, Bool.and_eq_true] at h
              exact h.1
            subst hhy
            rw [show hasConsecHyphens ('-' :: b :: r2) =
                  hasConsecHyphens (b :: r2) by
                simp [hasConsecHyphens, isNameClassChar_ne_hyphen hb]]
            exact ih.1 h
        · rw [if_neg hhy] at h
          exact absurd h (by decide)

lemma eq_dropLast_append_getLast? {α : Type} (l : List α) (c : α)
    (h : l.getLast? = some c) : l = l.dropLast ++ [c] := by
  induction l with
  | nil => exact absurd h (by simp)
  | cons a l ih =>
    cases l with
    | nil =>
      simp only [List.getLast?_singleton, Option.some.injEq] at h
      simp [h]
    | cons b l2 =>
      rw [List.getLast?_cons_cons] at h
      have h2 := ih h
      calc a :: b :: l2 = a :: ((b :: l2).dropLast ++ [c]) := by rw [← h2]
        _ = (a :: b :: l2).dropLast ++ [c] := by simp

lemma hasConsecHyphens_append_single (l : List Char) {c : Char} (hc : c ≠ '-') :
    hasConsecHyphens (l ++ [c]) = hasConsecHyphens l := by
  induction l with
  | nil => simp [hasConsecHyphens]
  | cons a l ih =>
    cases l with
    | nil => simp [hasConsecHyphens, hc]
    | cons b l2 =>
      show hasConsecHyphens (a :: b :: (l2 ++ [c])) = hasConsecHyphens (a :: b :: l2)
      simp only [hasConsecHyphens]
      rw [show b :: (l2 ++ [c]) = (b :: l2) ++ [c] by simp]
      rw [ih]

lemma agentSkillsNameMatch_no_consec (cs : List Char)
    (h : agentSkillsNameMatch cs = true) : hasConsecHyphens cs = false := by
  simp only [agentSkillsNameMatch, Bool.or_eq_true] at h
  rcases h with h | h
  · exact (nameRe_no_consec cs).1 h
  · rcases hlast : cs.getLast? with _ | c
    · rw [hlast] at h
      simp at h
    · rw [hlast] at h
      simp only [Bool.and_eq_true, decide_eq_true_eq] at h
      obtain ⟨hnl, hgr⟩ := h
      have hshape := eq_dropLast_append_getLast? cs c hlast
      rw [hshape, hnl]
      rw [hasConsecHyphens_append_single cs.dropLast (by decide : ('\n' : Char) ≠ '-')]
      exact (nameRe_no_consec cs.dropLast).1 hgr

lemma find_delim_idx_eq_none {p : String → Bool} : ∀ l : List String,
    find_delim_idx p l = none ↔ ∀ x ∈ l, p x = false := by
  intro l
  induction l with
  | nil => simp [find_delim_idx]
  | cons a rest ih =>
    by_cases ha : p a = true
    · simp [find_delim_idx, ha]
    · have ha' : p a = false := by
        cases hpa : p a
        · rfl
        · exact absurd hpa ha
      simp [find_delim_idx, ha', ih]

lemma find_delim_idx_append {p : String → Bool} (pre : List String) (d : String)
    (post : List String) (hpre : ∀ x ∈ pre, p x = false) (hd : p d = true) :
    find_delim_idx p (pre ++ d :: post) = some pre.length := by
  induction pre with
  | nil => simp [find_delim_idx, hd]
  | cons a pre ih =>
    have ha : p a = false := hpre a (by simp)
    simp only [List.cons_append, find_delim_idx, ha, Bool.false_eq_true, if_false,
      List.append_eq]
    rw [ih (fun x hx => hpre x (by simp [hx]))]
    simp

/-- C9: every string matching `AGENT_SKILLS_NAME_RE` is free of consecutive
hyphens, so the consecutive-hyphen branch of `validate_skill_name` is
unreachable and the function never returns the consecutive-hyphen message. -/
theorem name_regex_excludes_consecutive_hyphens :
    (∀ cs : List Char, agentSkillsNameMatch cs = true → hasConsecHyphens cs = false) ∧
    (∀ name : String, validate_skill_name name ≠ some Msg.nameConsecHyphens) := by
  refine ⟨agentSkillsNameMatch_no_consec, ?_⟩
  intro name h
  unfold validate_skill_name at h
  split_ifs at h with h1 h2 h3
  · have hno := agentSkillsNameMatch_no_consec name.toList h2
    rw [hno] at h3
    exact absurd h3 (by decide)
  · simp at h
  · simp at h

/-- Witness for `name_regex_excludes_consecutive_hyphens` at the concrete
name `a-b`. -/
theorem name_regex_excludes_consecutive_hyphens_witness :
    agentSkillsNameMatch "a-b".toList = true ∧ hasConsecHyphens "a-b".toList = false :=
  ⟨by decide, name_regex_excludes_consecutive_hyphens.1 "a-b".toList (by decide)⟩

/-- C4 (counterexample): a descriptor whose first line is blank and whose
first non-empty line is the delimiter.  The spec-modelled success condition
holds, yet `extract_frontmatter_text` reports a missing start delimiter, so
extraction does not succeed exactly when the first non-empty line is the
delimiter. -/
theorem frontmatter_leading_blank_line_rejected :
    extract_frontmatter_spec_succeeds ["", "---", "name: demo", "---"] = true ∧
    (extract_frontmatter_text ["", "---", "name: demo", "---"]).1 = none ∧
    (extract_frontmatter_text ["", "---", "name: demo", "---"]).2 =
      some "missing YAML frontmatter start line ---" := by
  refine ⟨by decide, by decide, by decide⟩

/-- C4 (amended): frontmatter extraction succeeds exactly when the first line
itself (after stripping surrounding whitespace) is the delimiter `---` and a
later delimiter line exists; it returns the text between the two delimiters,
and a missing opening or closing delimiter produces a descriptive error
string instead of a success value. -/
theorem extract_frontmatter_characterization (lines : List String) :
    ((extract_frontmatter_text lines).1.isSome = true ↔
      ∃ l0 rest, lines = l0 :: rest ∧ pyStrip l0 = "---" ∧ ∃ l ∈ rest, pyStrip l = "---") ∧
    ((extract_frontmatter_text lines).2.isSome = true ↔ (extract_frontmatter_text lines).1 = none) ∧
    (∀ l0 pre d post, lines = l0 :: (pre ++ d :: post) → pyStrip l0 = "---" →
      (∀ x ∈ pre, pyStrip x ≠ "---") → pyStrip d = "---" →
      extract_frontmatter_text lines = (some ("\n".intercalate pre), none)) := by
  refine ⟨?_, ?_, ?_⟩
  · cases lines with
    | nil => simp [extract_frontmatter_text]
    | cons l0 rest =>
      by_cases h0 : pyStrip l0 = "---"
      · rcases hidx : find_delim_idx (fun l => pyStrip l == "---") rest with _ | i
        · have hall := (find_delim_idx_eq_none rest).mp hidx
          simp only [extract_frontmatter_text, h0, if_true, hidx]
          simp only [Option.isSome_none, Bool.false_eq_true, false_iff]
          rintro ⟨l0', rest', heq, _, l, hl, hstrip⟩
          cases heq
          have := hall l hl
          rw [hstrip] at this
          simp at this
        · simp only [extract_frontmatter_text, h0, if_true, hidx]
          simp only [Option.isSome_some, true_iff]
          refine ⟨l0, rest, rfl, h0, ?_⟩
          have : ∃ l ∈ rest, (fun l => pyStrip l == "---") l = true := by
            by_contra hc
            push_neg at hc
            have : find_delim_idx (fun l => pyStrip l == "---") rest = none := by
              rw [find_delim_idx_eq_none]
              intro x hx
              have := hc x hx
              cases hpx : pyStrip x == "---"
              · rfl
              · exact absurd hpx this
            rw [this] at hidx
            exact Option.noConfusion hidx
          obtain ⟨l, hl, hpl⟩ := this
          exact ⟨l, hl, by simpa using hpl⟩
      · simp only [extract_frontmatter_text, h0, if_false]
        simp only [Option.isSome_none, Bool.false_eq_true, false_iff]
        rintro ⟨l0', rest', heq, hstrip, _⟩
        cases heq
        exact h0 hstrip
  · cases lines with
    | nil => simp [extract_frontmatter_text]
    | cons l0 rest =>
      by_cases h0 : pyStrip l0 = "---"
      · rcases hidx : find_delim_idx (fun l => pyStrip l == "---") rest with _ | i
        · simp [extract_frontmatter_text, h0, hidx]
        · simp [extract_frontmatter_text, h0, hidx]
      · simp [extract_frontmatter_text, h0]
  · rintro l0 pre d post rfl h0 hpre hd
    have hfind : find_delim_idx (fun l => pyStrip l == "---") (pre ++ d :: post) =
        some pre.length := by
      refine find_delim_idx_append pre d post ?_ (by simpa using hd)
      intro x hx
      have := hpre x hx
      cases hpx : pyStrip x == "---"
      · rfl
      · exact absurd (by simpa using hpx) this
    simp only [extract_frontmatter_text, h0, if_true, hfind]
    rw [List.take_left]

/-- Witness for `extract_frontmatter_characterization` on a concrete
well-formed descriptor. -/
theorem extract_frontmatter_characterization_witness :
    extract_frontmatter_text ["---", "name: demo", "---", "body"] =
      (some "name: demo", none) :=
  (extract_frontmatter_characterization ["---", "name: demo", "---", "body"]).2.2
    "---" ["name: demo"] "---" ["body"] rfl (by decide) (by decide) (by decide)

lemma validate_exec_mode_calls (oracle : List String → ProcResult) (entry root : String) :
    (validate_exec_mode oracle entry root).2 = [HELP_ARGS, json_run_args root] := by
  unfold validate_exec_mode
  rcases hv : validate_json_stdout (oracle (json_run_args root)).stdout with ⟨o, e⟩
  simp only [hv]
  cases e <;> simp

lemma validate_skill_dir_calls (testFileExists : String → Bool) (repo_root : String)
    (mode : Mode) (s : SkillInput) (seen : List (String × String)) :
    (validate_skill_dir testFileExists repo_root mode s seen).2.2 =
      if mode = Mode.exec ∧ s.entryExists = true then [HELP_ARGS, json_run_args repo_root]
      else [] := by
  unfold validate_skill_dir
  by_cases h : mode = Mode.exec ∧ s.entryExists = true
  · simp only [h, if_true, if_pos]
    exact validate_exec_mode_calls s.oracle (entry_script_path s) repo_root
  · simp only [h, if_false, if_neg]

/-- C7: the companion test filename is derived from the skill name by the
hyphen-to-underscore map with `test_` prefix and `.py` suffix, under the
fixed tests directory; if missing, the issue is an error exactly for the
highest-trust tier `.curated` and a warning otherwise, and skills without an
entry script get no test-presence issue. -/
theorem test_presence_checker_behavior (testFileExists : String → Bool)
    (repo_root tier dir_name : String) :
    validate_tests testFileExists repo_root tier dir_name false = [] ∧
    (testFileExists (test_filename_for_skill dir_name) = true →
      validate_tests testFileExists repo_root tier dir_name true = []) ∧
    (testFileExists (test_filename_for_skill dir_name) = false → tier = ".curated" →
      validate_tests testFileExists repo_root tier dir_name true =
        [⟨"error", repo_root ++ "/tests/skills/" ++ test_filename_for_skill dir_name,
          Msg.missingTestFile (test_filename_for_skill dir_name)⟩]) ∧
    (testFileExists (test_filename_for_skill dir_name) = false → tier ≠ ".curated" →
      validate_tests testFileExists repo_root tier dir_name true =
        [⟨"warning", repo_root ++ "/tests/skills/" ++ test_filename_for_skill dir_name,
          Msg.missingTestFile (test_filename_for_skill dir_name)⟩]) := by
  refine ⟨by simp [validate_tests], ?_, ?_, ?_⟩
  · intro h
    simp [validate_tests, h]
  · intro h ht
    simp [validate_tests, h, ht]
  · intro h ht
    simp [validate_tests, h, ht]

/-- Witness for `test_presence_checker_behavior`: a curated script-backed
skill with no test file gets exactly one error issue naming the derived
filename. -/
theorem test_presence_checker_behavior_witness :
    validate_tests (fun _ => false) "repo" ".curated" "git-status" true =
      [⟨"error", "repo" ++ "/tests/skills/" ++ test_filename_for_skill "git-status",
        Msg.missingTestFile (test_filename_for_skill "git-status")⟩] :=
  (test_presence_checker_behavior (fun _ => false) "repo" ".curated" "git-status").2.2.1 rfl rfl

/-- C8: in fast mode no subprocess is spawned; in exec mode a script-backed
skill triggers exactly the two invocations `--help` and `--json --cwd <root>`
(hence at most two), and a skill without an entry script triggers none; a
whole fast-mode run over any list of skills spawns nothing. -/
theorem subprocess_call_bounds (testFileExists : String → Bool) (repo_root : String)
    (mode : Mode) (s : SkillInput) (seen : List (String × String)) :
    (mode = Mode.fast →
      (validate_skill_dir testFileExists repo_root mode s seen).2.2 = []) ∧
    (s.entryExists = false →
      (validate_skill_dir testFileExists repo_root mode s seen).2.2 = []) ∧
    (validate_skill_dir testFileExists repo_root mode s seen).2.2.length ≤ 2 ∧
    (mode = Mode.exec → s.entryExists = true →
      (validate_skill_dir testFileExists repo_root mode s seen).2.2 =
        [HELP_ARGS, json_run_args repo_root]) ∧
    (∀ l : List SkillInput, ∀ seen2 : List (String × String),
      (processSkills testFileExists repo_root Mode.fast l seen2).2.2 = []) := by
  rw [validate_skill_dir_calls]
  refine ⟨?_, ?_, ?_, ?_, ?_⟩
  · rintro rfl
    simp
  · intro h
    simp [h]
  · by_cases h : mode = Mode.exec ∧ s.entryExists = true
    · simp [h]
    · simp [h]
  · intro hm he
    simp [hm, he]
  · intro l
    induction l with
    | nil => intro seen2; rfl
    | cons a rest ih =>
      intro seen2
      show (validate_skill_dir testFileExists repo_root Mode.fast a seen2).2.2 ++
          (processSkills testFileExists repo_root Mode.fast rest
            (validate_skill_dir testFileExists repo_root Mode.fast a seen2).2.1).2.2 = []
      rw [validate_skill_dir_calls, ih]
      simp

/-- Witness for `subprocess_call_bounds`: a fast-mode validation of a concrete
skill performs no subprocess invocation. -/
theorem subprocess_call_bounds_witness :
    (validate_skill_dir (fun _ => true) "repo" Mode.fast
      ⟨"skills/.curated/demo", "demo", ".curated", ⟨some "demo", none, none⟩,
        true, true, false, false, false, false, fun _ => ⟨0, Stdout.blank, ""⟩⟩ []).2.2 = [] :=
  (subprocess_call_bounds (fun _ => true) "repo" Mode.fast
    ⟨"skills/.curated/demo", "demo", ".curated", ⟨some "demo", none, none⟩,
      true, true, false, false, false, false, fun _ => ⟨0, Stdout.blank, ""⟩⟩ []).1 rfl

lemma validate_json_stdout_shape (out : Stdout) :
    (∃ e, validate_json_stdout out = (none, some e)) ∨
    (∃ kvs, validate_json_stdout out = (some kvs, none)) := by
  cases out with
  | blank => exact Or.inl ⟨_, rfl⟩
  | invalid exc => exact Or.inl ⟨_, rfl⟩
  | parsed v =>
    cases v with
    | null => exact Or.inl ⟨_, rfl⟩
    | bool b => exact Or.inl ⟨_, rfl⟩
    | str s => exact Or.inl ⟨_, rfl⟩
    | num n => exact Or.inl ⟨_, rfl⟩
    | arr xs => exact Or.inl ⟨_, rfl⟩
    | obj kvs =>
      rcases h : check_required_keys kvs keyTypeIsBool with _ | e
      · exact Or.inr ⟨kvs, by simp [validate_json_stdout, h]⟩
      · exact Or.inl ⟨e, by simp [validate_json_stdout, h]⟩

lemma exec_mode_err_of_invalid (oracle : List String → ProcResult) (entry root : String)
    {e : JsonErr}
    (he : validate_json_stdout (oracle (json_run_args root)).stdout = (none, some e)) :
    ∃ i ∈ (validate_exec_mode oracle entry root).1, i.level = "error" := by
  refine ⟨⟨"error", entry,
    Msg.jsonValidationFailed e ((oracle (json_run_args root)).stderr.take 400)⟩, ?_, rfl⟩
  simp only [validate_exec_mode, he]
  exact List.mem_append_right _ (by simp)

/-- C1: for the `--json --cwd <root>` run of a script-backed skill's entry
script, the exit-code invariants are enforced: exit 0 with reported `ok` not
`True` yields an error issue, exit 3 with reported `ok` not `False` yields an
error issue, and any exit code outside `{0, 3}` yields an error issue — also
when stdout is empty, invalid JSON, a non-object, or has missing or mistyped
required keys (then `reported_ok` is `none` and the JSON-validation error
issue is recorded). -/
theorem exec_mode_exit_code_invariants (oracle : List String → ProcResult)
    (entry root : String) :
    ((oracle (json_run_args root)).returncode = 0 →
      jsonIsTrue (reported_ok (oracle (json_run_args root)).stdout) = false →
      ∃ i ∈ (validate_exec_mode oracle entry root).1, i.level = "error") ∧
    ((oracle (json_run_args root)).returncode = EXIT_PRECONDITION →
      jsonIsFalse (reported_ok (oracle (json_run_args root)).stdout) = false →
      ∃ i ∈ (validate_exec_mode oracle entry root).1, i.level = "error") ∧
    ((oracle (json_run_args root)).returncode ≠ 0 →
      (oracle (json_run_args root)).returncode ≠ EXIT_PRECONDITION →
      ∃ i ∈ (validate_exec_mode oracle entry root).1, i.level = "error") := by
  rcases validate_json_stdout_shape (oracle (json_run_args root)).stdout with
    ⟨e, he⟩ | ⟨kvs, hk⟩
  · exact ⟨fun _ _ => exec_mode_err_of_invalid oracle entry root he,
      fun _ _ => exec_mode_err_of_invalid oracle entry root he,
      fun _ _ => exec_mode_err_of_invalid oracle entry root he⟩
  · have hrep : reported_ok (oracle (json_run_args root)).stdout = objGet kvs "ok" := by
      simp [reported_ok, hk]
    refine ⟨?_, ?_, ?_⟩
    · intro h0 hok
      refine ⟨⟨"error", entry, Msg.exitZeroOkNotTrue⟩, ?_, rfl⟩
      simp only [validate_exec_mode, hk]
      have hcond : (oracle (json_run_args root)).returncode = 0 ∧
          (some kvs).isSome = true ∧
          ¬jsonIsTrue (objGetOpt (some kvs) "ok") = true := by
        refine ⟨h0, rfl, ?_⟩
        rw [show objGetOpt (some kvs) "ok" = objGet kvs "ok" from rfl, ← hrep, hok]
        simp
      simp only [List.mem_append, hcond, if_true, if_pos]
      simp
    · intro h3 hok
      refine ⟨⟨"error", entry, Msg.exitPreconditionOkNotFalse⟩, ?_, rfl⟩
      simp only [validate_exec_mode, hk]
      have hcond : (oracle (json_run_args root)).returncode = EXIT_PRECONDITION ∧
          (some kvs).isSome = true ∧
          ¬jsonIsFalse (objGetOpt (some kvs) "ok") = true := by
        refine ⟨h3, rfl, ?_⟩
        rw [show objGetOpt (some kvs) "ok" = objGet kvs "ok" from rfl, ← hrep, hok]
        simp
      simp only [List.mem_append, hcond, if_true, if_pos]
      simp
    · intro h0 h3
      refine ⟨⟨"error", entry, Msg.unexpectedExit (oracle (json_run_args root)).returncode⟩,
        ?_, rfl⟩
      simp only [validate_exec_mode, hk]
      have hcond : (oracle (json_run_args root)).returncode ≠ 0 ∧
          (oracle (json_run_args root)).returncode ≠ EXIT_PRECONDITION := ⟨h0, h3⟩
      simp only [List.mem_append, hcond, if_true, if_pos]
      simp
      exact ⟨h0, h3⟩

/-- Witness for `exec_mode_exit_code_invariants`: a script exiting 4 (outside
the contract's `{0, 3}`) with blank stdout is flagged with an error issue. -/
theorem exec_mode_exit_code_invariants_witness :
    ∃ i ∈ (validate_exec_mode (fun _ => ⟨4, Stdout.blank, ""⟩) "entry" "root").1,
      i.level = "error" :=
  (exec_mode_exit_code_invariants (fun _ => ⟨4, Stdout.blank, ""⟩) "entry" "root").2.2
    (by decide) (by decide)

lemma validate_skill_name_not_dryRun {n : String} {m : Msg}
    (h : validate_skill_name n = some m) : m ≠ Msg.dryRunChanged := by
  unfold validate_skill_name at h
  split_ifs at h
  all_goals (cases h; simp)

lemma validate_metadata_not_dryRun (pres : ParseOutcome) (a b c : String)
    (seen : List (String × String)) :
    ∀ i ∈ (validate_metadata pres a b c seen).1, i.message ≠ Msg.dryRunChanged := by
  intro i hi heq
  rcases pres with ⟨n, d, f⟩
  rcases n with _ | n
  · rcases d with _ | d <;> rcases f with _ | f
    all_goals simp only [validate_metadata] at hi
    all_goals try split_ifs at hi
    all_goals simp only [List.cons_append, List.nil_append, List.append_nil,
      List.singleton_append, List.append_assoc] at hi
    all_goals fin_cases hi <;> simp at heq
  · rcases hvn : validate_skill_name n with _ | m <;>
      rcases hlk : List.lookup n seen with _ | p <;>
      rcases d with _ | d <;> rcases f with _ | f
    all_goals simp only [validate_metadata, hvn, hlk] at hi
    all_goals try split_ifs at hi
    all_goals simp only [List.cons_append, List.nil_append, List.append_nil,
      List.singleton_append, List.append_assoc] at hi
    all_goals fin_cases hi <;> (try simp at heq) <;>
      (try exact validate_skill_name_not_dryRun hvn heq)

lemma validate_directories_not_dryRun (r1 r2 a1 a2 : Bool) (p : String) :
    ∀ i ∈ validate_directories r1 r2 a1 a2 p, i.message ≠ Msg.dryRunChanged := by
  intro i hi heq
  unfold validate_directories at hi
  split_ifs at hi <;>
    simp only [List.cons_append, List.nil_append, List.append_nil,
      List.singleton_append] at hi <;>
    fin_cases hi <;> simp at heq

lemma validate_tests_not_dryRun (tf : String → Bool) (rr tier dn : String) (e : Bool) :
    ∀ i ∈ validate_tests tf rr tier dn e, i.message ≠ Msg.dryRunChanged := by
  intro i hi heq
  simp only [validate_tests] at hi
  split_ifs at hi <;> fin_cases hi <;> simp at heq

lemma filter_dryRun_exec (oracle : List String → ProcResult) (entry root : String)
    (kvs : List (String × Json))
    (hk : validate_json_stdout (oracle (json_run_args root)).stdout = (some kvs, none))
    (hch : jsonIsTrue (objGet kvs "changed") = true) :
    (validate_exec_mode oracle entry root).1.filter
      (fun i => i.message == Msg.dryRunChanged) = [⟨"error", entry, Msg.dryRunChanged⟩] := by
  simp only [validate_exec_mode, hk]
  have hch' : jsonIsTrue (objGetOpt (some kvs) "changed") = true := hch
  simp only [hch', if_true]
  have hne1 : ∀ (rc : Int) (st : String),
      (Msg.helpFailed rc st == Msg.dryRunChanged) = false := by
    intro rc st
    simp [beq_eq_false_iff_ne]
  have hne2 : ∀ rc : Int, (Msg.unexpectedExit rc == Msg.dryRunChanged) = false := by
    intro rc
    simp [beq_eq_false_iff_ne]
  have hne3 : (Msg.exitZeroOkNotTrue == Msg.dryRunChanged) = false := by decide
  have hne4 : (Msg.exitPreconditionOkNotFalse == Msg.dryRunChanged) = false := by decide
  have hpos : (Msg.dryRunChanged == Msg.dryRunChanged) = true := by decide
  split_ifs <;> simp [List.filter_append, List.filter, hne1, hne2, hne3, hne4, hpos]

lemma validate_skill_dir_issues (tf : String → Bool) (rr : String) (mode : Mode)
    (s : SkillInput) (seen : List (String × String)) :
    (validate_skill_dir tf rr mode s seen).1.issues =
      (validate_metadata s.parse (s.dirPath ++ "/SKILL.md") s.dirName s.dirPath seen).1 ++
      validate_directories s.refsDirExists s.refsNonempty s.assetsExists s.assetsNonempty
        s.dirPath ++
      (if s.scriptsDirExists ∧ ¬s.entryExists then
        [⟨"error", s.dirPath ++ "/scripts", Msg.scriptsWithoutRun⟩] else []) ++
      validate_tests tf rr s.tier s.dirName s.entryExists ++
      (if mode = Mode.exec ∧ s.entryExists then
        validate_exec_mode s.oracle (entry_script_path s) rr else ([], [])).1 := rfl

/-- C2: for every exec-mode run of a script-backed skill, the two subprocess
invocations are exactly `--help` and `--json --cwd <root>` — never `--apply`
(the third token of the json invocation is the value of `--cwd`) — and
whenever the json invocation's validated output reports `changed` `True`,
exactly one error issue flagging the dry-run violation is recorded in the
skill's report. -/
theorem exec_mode_dry_run_contract (testFileExists : String → Bool) (repo_root : String)
    (s : SkillInput) (seen : List (String × String)) (hentry : s.entryExists = true) :
    ((validate_skill_dir testFileExists repo_root Mode.exec s seen).2.2 =
        [HELP_ARGS, json_run_args repo_root] ∧
      (repo_root ≠ "--apply" →
        ∀ args ∈ (validate_skill_dir testFileExists repo_root Mode.exec s seen).2.2,
          "--apply" ∉ args)) ∧
    (∀ kvs, validate_json_stdout (s.oracle (json_run_args repo_root)).stdout =
        (some kvs, none) →
      jsonIsTrue (objGet kvs "changed") = true →
      (validate_skill_dir testFileExists repo_root Mode.exec s seen).1.issues.filter
          (fun i => i.message == Msg.dryRunChanged) =
        [⟨"error", entry_script_path s, Msg.dryRunChanged⟩]) := by
  have hcalls : (validate_skill_dir testFileExists repo_root Mode.exec s seen).2.2 =
      [HELP_ARGS, json_run_args repo_root] := by
    rw [validate_skill_dir_calls]
    simp [hentry]
  refine ⟨⟨hcalls, ?_⟩, ?_⟩
  · intro hroot args hargs
    rw [hcalls] at hargs
    simp only [List.mem_cons, List.not_mem_nil, or_false] at hargs
    intro hmem
    rcases hargs with rfl | rfl
    · simp only [HELP_ARGS, List.mem_singleton] at hmem
      exact absurd hmem (by decide)
    · simp only [json_run_args, List.mem_cons, List.not_mem_nil, or_false] at hmem
      rcases hmem with h | h | h
      · exact absurd h (by decide)
      · exact absurd h (by decide)
      · exact hroot h.symm
  · intro kvs hk hch
    rw [validate_skill_dir_issues]
    have hex : (if Mode.exec = Mode.exec ∧ s.entryExists then
        validate_exec_mode s.oracle (entry_script_path s) repo_root else ([], [])).1 =
        (validate_exec_mode s.oracle (entry_script_path s) repo_root).1 := by
      simp [hentry]
    rw [hex]
    rw [List.filter_append, List.filter_append, List.filter_append, List.filter_append]
    have h1 : ((validate_metadata s.parse (s.dirPath ++ "/SKILL.md") s.dirName s.dirPath
        seen).1.filter (fun i => i.message == Msg.dryRunChanged)) = [] :=
      List.filter_eq_nil_iff.mpr (fun a ha => by
        simpa using validate_metadata_not_dryRun s.parse _ _ _ seen a ha)
    have h2 : ((validate_directories s.refsDirExists s.refsNonempty s.assetsExists
        s.assetsNonempty s.dirPath).filter (fun i => i.message == Msg.dryRunChanged)) = [] :=
      List.filter_eq_nil_iff.mpr (fun a ha => by
        simpa using validate_directories_not_dryRun _ _ _ _ _ a ha)
    have hne : (Msg.scriptsWithoutRun == Msg.dryRunChanged) = false := by decide
    have h3 : ((if s.scriptsDirExists ∧ ¬s.entryExists then
        ([⟨"error", s.dirPath ++ "/scripts", Msg.scriptsWithoutRun⟩] : List Issue)
        else []).filter (fun i => i.message == Msg.dryRunChanged)) = [] := by
      split_ifs <;> simp [List.filter, hne]
    have h4 : ((validate_tests testFileExists repo_root s.tier s.dirName
        s.entryExists).filter (fun i => i.message == Msg.dryRunChanged)) = [] :=
      List.filter_eq_nil_iff.mpr (fun a ha => by
        simpa using validate_tests_not_dryRun _ _ _ _ _ a ha)
    rw [h1, h2, h3, h4, filter_dryRun_exec s.oracle (entry_script_path s) repo_root kvs hk hch]
    simp


/-- Witness for `exec_mode_dry_run_contract`: the demo skill's report carries
exactly one dry-run-violation error issue. -/
theorem exec_mode_dry_run_contract_witness :
    (validate_skill_dir (fun _ => true) "root" Mode.exec dryRunDemoSkill []).1.issues.filter
        (fun i => i.message == Msg.dryRunChanged) =
      [⟨"error", entry_script_path dryRunDemoSkill, Msg.dryRunChanged⟩] :=
  (exec_mode_dry_run_contract (fun _ => true) "root" dryRunDemoSkill [] rfl).2
    [("ok", Json.bool true), ("summary", Json.str "did things"), ("changed", Json.bool true)]
    rfl rfl

/-- C3 (counterexample): a skills root that exists but contains no skills
(empty root) does not exit 2 — the run proceeds, emits a report with zero
skills, and exits 0.  Only a nonexistent root is the fatal precondition. -/
theorem empty_root_exits_zero_and_emits :
    (validate_skills_main ⟨true, [], fun _ => false, "repo"⟩
      ⟨Mode.fast, false, false⟩).exitCode ≠ 2 ∧
    (validate_skills_main ⟨true, [], fun _ => false, "repo"⟩
      ⟨Mode.fast, false, false⟩).exitCode = 0 ∧
    (validate_skills_main ⟨true, [], fun _ => false, "repo"⟩
      ⟨Mode.fast, false, false⟩).emitted.isSome = true :=
  ⟨by decide, by decide, by decide⟩

/-- C3 (amended): for every run whose skills root is nonexistent, the process
exits with code 2 before any skill is processed and before any report is
emitted; an existing-but-empty root is instead processed normally. -/
theorem nonexistent_root_exits_two (env : RunEnv) (args : Args)
    (h : env.skillsRootExists = false) :
    validate_skills_main env args = ⟨2, none, []⟩ := by
  unfold validate_skills_main
  rw [h]
  simp

/-- Witness for `nonexistent_root_exits_two` at a concrete environment. -/
theorem nonexistent_root_exits_two_witness :
    validate_skills_main ⟨false, [], fun _ => false, "repo"⟩ ⟨Mode.fast, false, false⟩ =
      ⟨2, none, []⟩ :=
  nonexistent_root_exits_two ⟨false, [], fun _ => false, "repo"⟩ ⟨Mode.fast, false, false⟩ rfl

lemma issue_fold_spec (issues : List Issue) (acc : Nat × Nat) :
    issues.foldl
      (fun a i => if i.level == "error" then (a.1 + 1, a.2) else (a.1, a.2 + 1)) acc =
      (acc.1 + (issues.filter (fun i => i.level == "error")).length,
       acc.2 + (issues.filter (fun i => !(i.level == "error"))).length) := by
  induction issues generalizing acc with
  | nil => simp
  | cons i rest ih =>
    by_cases h : (i.level == "error") = true
    · simp only [List.foldl_cons, h, if_true, ih, List.filter_cons, Bool.not_true,
        Bool.false_eq_true, if_false, List.length_cons]
      exact Prod.ext (by omega) (by rfl)
    · have h' : (i.level == "error") = false := by
        cases hx : (i.level == "error")
        · rfl
        · exact absurd hx h
      simp only [List.foldl_cons, h', Bool.false_eq_true, if_false, ih, List.filter_cons,
        Bool.not_false, if_true, List.length_cons]
      exact Prod.ext (by rfl) (by omega)

lemma count_issues_fold (reports : List SkillReport) (acc : Nat × Nat) :
    reports.foldl
      (fun acc r => r.issues.foldl
        (fun a i => if i.level == "error" then (a.1 + 1, a.2) else (a.1, a.2 + 1)) acc) acc =
      (acc.1 + (((reports.map SkillReport.issues).flatten.filter
        (fun i => i.level == "error")).length),
       acc.2 + (((reports.map SkillReport.issues).flatten.filter
        (fun i => !(i.level == "error"))).length)) := by
  induction reports generalizing acc with
  | nil => simp
  | cons r rest ih =>
    simp only [List.foldl_cons]
    rw [issue_fold_spec r.issues acc, ih]
    simp only [List.map_cons, List.flatten, List.filter_append, List.length_append]
    exact Prod.ext (by simp; omega) (by simp; omega)

lemma count_issues_spec (reports : List SkillReport) :
    count_issues reports =
      (((reports.map SkillReport.issues).flatten.filter
        (fun i => i.level == "error")).length,
       ((reports.map SkillReport.issues).flatten.filter
        (fun i => !(i.level == "error"))).length) := by
  unfold count_issues
  rw [count_issues_fold]
  simp

/-- C6: given the skills root exists, the emitted summary counts errors and
warnings over all issues of all reports, its `ok` field equals
`errors == 0 AND (not fail_on_warn OR warnings == 0)`, and the process exit
code is 0 exactly when `ok` is true and 1 otherwise. -/
theorem summary_ok_and_exit_code (env : RunEnv) (args : Args)
    (h : env.skillsRootExists = true) :
    ∀ s reports, (validate_skills_main env args).emitted = some (s, reports) →
      (validate_skills_main env args).processed = reports ∧
      s.errors = ((reports.map SkillReport.issues).flatten.filter
        (fun i => i.level == "error")).length ∧
      s.warnings = ((reports.map SkillReport.issues).flatten.filter
        (fun i => !(i.level == "error"))).length ∧
      s.ok = (decide (s.errors = 0) && (!args.fail_on_warn || decide (s.warnings = 0))) ∧
      ((validate_skills_main env args).exitCode = 0 ↔ s.ok = true) ∧
      ((validate_skills_main env args).exitCode = 0 ∨
        (validate_skills_main env args).exitCode = 1) := by
  intro s reports hemit
  have hne : ¬(env.skillsRootExists = false) := by rw [h]; simp
  have hmain : validate_skills_main env args =
      ⟨(if (count_issues (processSkills env.testFileExists env.repoRoot args.mode
            (sortSkills env.discovered) []).1).1 > 0 then 1
        else if args.fail_on_warn ∧ (count_issues (processSkills env.testFileExists
            env.repoRoot args.mode (sortSkills env.discovered) []).1).2 > 0 then 1
        else 0),
       some (⟨decide ((count_issues (processSkills env.testFileExists env.repoRoot args.mode
            (sortSkills env.discovered) []).1).1 = 0) &&
          (!args.fail_on_warn || decide ((count_issues (processSkills env.testFileExists
            env.repoRoot args.mode (sortSkills env.discovered) []).1).2 = 0)),
          (processSkills env.testFileExists env.repoRoot args.mode
            (sortSkills env.discovered) []).1.length,
          (count_issues (processSkills env.testFileExists env.repoRoot args.mode
            (sortSkills env.discovered) []).1).1,
          (count_issues (processSkills env.testFileExists env.repoRoot args.mode
            (sortSkills env.discovered) []).1).2,
          args.mode⟩,
        (processSkills env.testFileExists env.repoRoot args.mode
          (sortSkills env.discovered) []).1),
       (processSkills env.testFileExists env.repoRoot args.mode
         (sortSkills env.discovered) []).1⟩ := by
    unfold validate_skills_main
    rw [if_neg hne]
  rw [hmain] at hemit
  simp only [Option.some.injEq, Prod.mk.injEq] at hemit
  obtain ⟨hs, hreports⟩ := hemit
  subst hreports
  subst hs
  rw [hmain]
  refine ⟨rfl, ?_, ?_, rfl, ?_, ?_⟩
  · rw [count_issues_spec]
  · rw [count_issues_spec]
  · constructor
    · intro hx
      by_cases h1 : (count_issues (processSkills env.testFileExists env.repoRoot args.mode
          (sortSkills env.discovered) []).1).1 = 0
      · by_cases h2 : args.fail_on_warn = true
        · by_cases h3 : (count_issues (processSkills env.testFileExists env.repoRoot
              args.mode (sortSkills env.discovered) []).1).2 = 0
          · simp [h1, h2, h3]
          · exfalso
            simp only [h1, gt_iff_lt, Nat.lt_irrefl, if_false] at hx
            rw [if_pos ⟨h2, Nat.pos_of_ne_zero h3⟩] at hx
            exact absurd hx (by decide)
        · have h2' : args.fail_on_warn = false := by
            cases hfw : args.fail_on_warn
            · rfl
            · exact absurd hfw h2
          simp [h1, h2']
      · exfalso
        simp only [gt_iff_lt] at hx
        rw [if_pos (Nat.pos_of_ne_zero h1)] at hx
        exact absurd hx (by decide)
    · intro hok
      simp only [Bool.and_eq_true, decide_eq_true_eq, Bool.or_eq_true,
        Bool.not_eq_true'] at hok
      obtain ⟨h1, h23⟩ := hok
      simp only [gt_iff_lt, h1, Nat.lt_irrefl, if_false]
      rcases h23 with h2 | h3
      · rw [if_neg]
        rintro ⟨hfw, _⟩
        rw [h2] at hfw
        exact Bool.noConfusion hfw
      · rw [if_neg]
        rintro ⟨_, hw⟩
        rw [h3] at hw
        exact Nat.lt_irrefl 0 hw
  · split_ifs <;> simp

/-- Witness for `summary_ok_and_exit_code` at a concrete empty run. -/
theorem summary_ok_and_exit_code_witness :
    (validate_skills_main ⟨true, [], fun _ => false, "repo"⟩
        ⟨Mode.fast, false, false⟩).exitCode = 0 ∨
      (validate_skills_main ⟨true, [], fun _ => false, "repo"⟩
        ⟨Mode.fast, false, false⟩).exitCode = 1 :=
  ((summary_ok_and_exit_code ⟨true, [], fun _ => false, "repo"⟩ ⟨Mode.fast, false, false⟩
    rfl ⟨true, 0, 0, 0, Mode.fast⟩ [] rfl).2.2.2.2.2)


lemma validate_metadata_seen (pres : ParseOutcome) (a b c : String)
    (seen : List (String × String)) :
    (validate_metadata pres a b c seen).2.1 =
      match pres.name with
      | none => seen
      | some n =>
        match seen.lookup n with
        | some _ => seen
        | none => (n, c) :: seen := by
  rcases pres with ⟨n, d, f⟩
  rcases n with _ | n
  · rfl
  · rcases hlk : List.lookup n seen with _ | p <;>
      simp only [validate_metadata, hlk]

lemma validate_skill_dir_seen (tf : String → Bool) (rr : String) (mode : Mode)
    (s : SkillInput) (seen : List (String × String)) :
    (validate_skill_dir tf rr mode s seen).2.1 =
      match declaredName s with
      | none => seen
      | some n =>
        match seen.lookup n with
        | some _ => seen
        | none => (n, s.dirPath) :: seen :=
  validate_metadata_seen s.parse (s.dirPath ++ "/SKILL.md") s.dirName s.dirPath seen

lemma validate_metadata_dup_mem (pres : ParseOutcome) (a b c : String)
    (seen : List (String × String)) {n p : String}
    (hn : pres.name = some n) (hlk : seen.lookup n = some p) :
    (⟨"error", a, Msg.duplicateName n p⟩ : Issue) ∈ (validate_metadata pres a b c seen).1 := by
  rcases pres with ⟨n', d, f⟩
  simp only at hn
  subst hn
  simp only [validate_metadata, hlk]
  rcases d with _ | d
  · simp [List.mem_append]
  · simp [List.mem_append]

lemma validate_skill_dir_dup_mem (tf : String → Bool) (rr : String) (mode : Mode)
    (s : SkillInput) (seen : List (String × String)) {n p : String}
    (hn : declaredName s = some n) (hlk : seen.lookup n = some p) :
    (⟨"error", s.dirPath ++ "/SKILL.md", Msg.duplicateName n p⟩ : Issue) ∈
      (validate_skill_dir tf rr mode s seen).1.issues := by
  rw [validate_skill_dir_issues]
  exact List.mem_append_left _ (List.mem_append_left _ (List.mem_append_left _
    (List.mem_append_left _ (validate_metadata_dup_mem s.parse _ _ _ seen hn hlk))))

lemma processSkills_seen_lookup (tf : String → Bool) (rr : String) (mode : Mode) :
    ∀ (l : List SkillInput) (seen : List (String × String)) (n : String),
    ((processSkills tf rr mode l seen).2.1).lookup n =
      (seen.lookup n).or (firstDeclaringPath n l) := by
  intro l
  induction l with
  | nil =>
    intro seen n
    simp [processSkills, firstDeclaringPath]
  | cons s rest ih =>
    intro seen n
    show ((processSkills tf rr mode rest
        (validate_skill_dir tf rr mode s seen).2.1).2.1).lookup n = _
    rw [ih, validate_skill_dir_seen]
    rcases hd : declaredName s with _ | m
    · simp only [firstDeclaringPath, hd]
      simp
    · rcases hlk : List.lookup m seen with _ | p
      · by_cases hmn : m = n
        · subst hmn
          simp only [firstDeclaringPath, hd, if_pos rfl, hlk]
          have hcons : List.lookup m ((m, s.dirPath) :: seen) = some s.dirPath := by
            simp [List.lookup]
          rw [hcons]
          simp
        · have hbeq : (n == m) = false := by
            rw [beq_eq_false_iff_ne]
            exact Ne.symm hmn
          have hcons : List.lookup n ((m, s.dirPath) :: seen) = List.lookup n seen := by
            simp [List.lookup, hbeq]
          simp only [firstDeclaringPath, hd, hlk]
          rw [if_neg (by simp [hmn]), hcons]
      · by_cases hmn : m = n
        · subst hmn
          simp only [firstDeclaringPath, hd, if_pos rfl, hlk]
          simp [Option.or]
        · simp only [firstDeclaringPath, hd]
          rw [if_neg (by simp [hmn])]
          rw [hlk]

lemma processSkills_length (tf : String → Bool) (rr : String) (mode : Mode) :
    ∀ (l : List SkillInput) (seen : List (String × String)),
    (processSkills tf rr mode l seen).1.length = l.length := by
  intro l
  induction l with
  | nil => intro seen; rfl
  | cons s rest ih =>
    intro seen
    show ((validate_skill_dir tf rr mode s seen).1 ::
      (processSkills tf rr mode rest (validate_skill_dir tf rr mode s seen).2.1).1).length =
      rest.length + 1
    simp [ih]

lemma processSkills_get (tf : String → Bool) (rr : String) (mode : Mode) :
    ∀ (l : List SkillInput) (seen : List (String × String)) (i : Nat)
      (hi : i < l.length) (hi2 : i < (processSkills tf rr mode l seen).1.length),
    (processSkills tf rr mode l seen).1.get ⟨i, hi2⟩ =
      (validate_skill_dir tf rr mode (l.get ⟨i, hi⟩)
        ((processSkills tf rr mode (l.take i) seen).2.1)).1 := by
  intro l
  induction l with
  | nil =>
    intro seen i hi
    exact absurd hi (by simp)
  | cons s rest ih =>
    intro seen i hi hi2
    cases i with
    | zero => rfl
    | succ i =>
      have hi' : i < rest.length := Nat.lt_of_succ_lt_succ hi
      have hi2' : i < (processSkills tf rr mode rest
          (validate_skill_dir tf rr mode s seen).2.1).1.length := by
        rw [processSkills_length]
        exact hi'
      show (processSkills tf rr mode rest
          (validate_skill_dir tf rr mode s seen).2.1).1.get ⟨i, hi2'⟩ = _
      rw [ih (validate_skill_dir tf rr mode s seen).2.1 i hi' hi2']
      rfl

lemma firstDeclaringPath_eq_of_first (n : String) :
    ∀ (l : List SkillInput) (j : Nat) (hj : j < l.length),
    declaredName (l.get ⟨j, hj⟩) = some n →
    (∀ k (hk : k < l.length), k < j → declaredName (l.get ⟨k, hk⟩) ≠ some n) →
    firstDeclaringPath n l = some (l.get ⟨j, hj⟩).dirPath := by
  intro l
  induction l with
  | nil =>
    intro j hj
    exact absurd hj (by simp)
  | cons s rest ih =>
    intro j hj hdecl hfirst
    cases j with
    | zero => simp [firstDeclaringPath, List.get] at hdecl ⊢; simp [hdecl]
    | succ j =>
      have hs : declaredName s ≠ some n := hfirst 0 (by simp) (Nat.succ_pos j)
      rw [show firstDeclaringPath n (s :: rest) =
        if declaredName s = some n then some s.dirPath
        else firstDeclaringPath n rest from rfl]
      rw [if_neg hs]
      exact ih j (Nat.lt_of_succ_lt_succ hj) hdecl
        (fun k hk hkj => hfirst (k + 1) (Nat.succ_lt_succ hk) (Nat.succ_lt_succ hkj))

lemma firstDeclaringPath_take (n : String) :
    ∀ (l : List SkillInput) (i : Nat) (p : String),
    firstDeclaringPath n (l.take i) = some p → firstDeclaringPath n l = some p := by
  intro l
  induction l with
  | nil =>
    intro i p h
    simp [List.take_nil, firstDeclaringPath] at h
  | cons s rest ih =>
    intro i p h
    cases i with
    | zero => simp [firstDeclaringPath] at h
    | succ i =>
      rw [List.take_succ_cons] at h
      by_cases hs : declaredName s = some n
      · simp only [firstDeclaringPath, hs, if_pos] at h ⊢
        exact h
      · simp only [firstDeclaringPath, hs, if_neg, if_false] at h ⊢
        exact ih i p h

lemma firstDeclaringPath_isSome (n : String) :
    ∀ (l : List SkillInput), (∃ s ∈ l, declaredName s = some n) →
    ∃ p, firstDeclaringPath n l = some p := by
  intro l
  induction l with
  | nil =>
    rintro ⟨s, hs, _⟩
    exact absurd hs (by simp)
  | cons a rest ih =>
    rintro ⟨s, hs, hdecl⟩
    by_cases ha : declaredName a = some n
    · exact ⟨a.dirPath, by simp [firstDeclaringPath, ha]⟩
    · rcases List.mem_cons.mp hs with rfl | hs'
      · exact absurd hdecl ha
      · obtain ⟨p, hp⟩ := ih ⟨s, hs', hdecl⟩
        exact ⟨p, by simp [firstDeclaringPath, ha, hp]⟩

lemma firstDeclaringPath_mem (n : String) :
    ∀ (l : List SkillInput) (p : String), firstDeclaringPath n l = some p →
    ∃ s ∈ l, declaredName s = some n ∧ s.dirPath = p := by
  intro l
  induction l with
  | nil =>
    intro p h
    simp [firstDeclaringPath] at h
  | cons a rest ih =>
    intro p h
    by_cases ha : declaredName a = some n
    · simp only [firstDeclaringPath, ha, if_pos, Option.some.injEq] at h
      exact ⟨a, by simp, ha, h⟩
    · simp only [firstDeclaringPath, ha, if_neg, if_false] at h
      obtain ⟨s, hs, hd, hp⟩ := ih p h
      exact ⟨s, by simp [hs], hd, hp⟩

lemma firstDeclaringPath_min (n : String) :
    ∀ (l : List SkillInput) (p : String), List.Sorted pathLe l →
    firstDeclaringPath n l = some p →
    ∀ s ∈ l, declaredName s = some n → p ≤ s.dirPath := by
  intro l
  induction l with
  | nil =>
    intro p _ h
    simp [firstDeclaringPath] at h
  | cons a rest ih =>
    intro p hsort hfirst s hs hdecl
    obtain ⟨hall, hsort'⟩ := List.sorted_cons.mp hsort
    by_cases ha : declaredName a = some n
    · simp only [firstDeclaringPath, ha, if_pos, Option.some.injEq] at hfirst
      subst hfirst
      rcases List.mem_cons.mp hs with rfl | hs'
      · exact le_refl _
      · exact hall s hs'
    · simp only [firstDeclaringPath, ha, if_neg, if_false] at hfirst
      rcases List.mem_cons.mp hs with rfl | hs'
      · exact absurd hdecl ha
      · exact ih p hsort' hfirst s hs' hdecl

lemma pathLe_total : IsTotal SkillInput pathLe :=
  ⟨fun a b => le_total a.dirPath b.dirPath⟩

lemma pathLe_trans : IsTrans SkillInput pathLe :=
  ⟨fun _ _ _ h1 h2 => le_trans h1 h2⟩

lemma sortSkills_sorted (l : List SkillInput) : List.Sorted pathLe (sortSkills l) := by
  haveI := pathLe_total
  haveI := pathLe_trans
  exact List.sorted_insertionSort pathLe l

lemma sortSkills_perm (l : List SkillInput) : (sortSkills l).Perm l :=
  List.perm_insertionSort pathLe l

lemma sortSkills_eq_of_perm (l1 l2 : List SkillInput) (hperm : l1.Perm l2)
    (hnd : (l1.map SkillInput.dirPath).Nodup) : sortSkills l1 = sortSkills l2 := by
  have hnd2 : (l2.map SkillInput.dirPath).Nodup :=
    ((hperm.map SkillInput.dirPath).nodup_iff).mp hnd
  have hstrict : ∀ (l : List SkillInput), (l.map SkillInput.dirPath).Nodup →
      List.Sorted (fun a b : SkillInput => a.dirPath < b.dirPath) (sortSkills l) := by
    intro l hl
    have hs : List.Sorted pathLe (sortSkills l) := sortSkills_sorted l
    have hndl : ((sortSkills l).map SkillInput.dirPath).Nodup :=
      (((sortSkills_perm l).map SkillInput.dirPath).nodup_iff).mpr hl
    have hne : (sortSkills l).Pairwise (fun a b => a.dirPath ≠ b.dirPath) :=
      List.pairwise_map.mp hndl
    exact (hs.and hne).imp (fun h => lt_of_le_of_ne h.1 h.2)
  have hpp : (sortSkills l1).Perm (sortSkills l2) :=
    (sortSkills_perm l1).trans (hperm.trans (sortSkills_perm l2).symm)
  haveI : IsAntisymm SkillInput (fun a b : SkillInput => a.dirPath < b.dirPath) :=
    ⟨fun _ _ h1 h2 => absurd h2 (lt_asymm h1)⟩
  exact List.eq_of_perm_of_sorted hpp (hstrict l1 hnd) (hstrict l2 hnd2)

/-- C5: in a validated sequence of skills, the first skill declaring a given
name registers that name (the accumulator maps the name to that skill's
directory, and nothing later overwrites it), and every subsequent skill
declaring the same name — whatever its tier — receives an error issue whose
message carries the first skill's directory path. -/
theorem duplicate_name_first_registration (tf : String → Bool) (rr : String) (mode : Mode)
    (l : List SkillInput) (n : String) (i j : Nat)
    (hi : i < l.length) (hj : j < l.length) (hji : j < i)
    (hdi : declaredName (l.get ⟨i, hi⟩) = some n)
    (hdj : declaredName (l.get ⟨j, hj⟩) = some n)
    (hfirst : ∀ k (hk : k < l.length), k < j → declaredName (l.get ⟨k, hk⟩) ≠ some n) :
    ((processSkills tf rr mode l []).2.1).lookup n = some (l.get ⟨j, hj⟩).dirPath ∧
    ∀ hi2 : i < (processSkills tf rr mode l []).1.length,
      (⟨"error", (l.get ⟨i, hi⟩).dirPath ++ "/SKILL.md",
        Msg.duplicateName n (l.get ⟨j, hj⟩).dirPath⟩ : Issue) ∈
        ((processSkills tf rr mode l []).1.get ⟨i, hi2⟩).issues := by
  have hfd : firstDeclaringPath n l = some (l.get ⟨j, hj⟩).dirPath :=
    firstDeclaringPath_eq_of_first n l j hj hdj hfirst
  constructor
  · rw [processSkills_seen_lookup]
    simp [hfd]
  · intro hi2
    rw [processSkills_get tf rr mode l [] i hi hi2]
    have hjt : j < (l.take i).length := by
      simp only [List.length_take]
      omega
    have hget : (l.take i).get ⟨j, hjt⟩ = l.get ⟨j, hj⟩ := by
      simp [List.get_eq_getElem, List.getElem_take]
    have htake : firstDeclaringPath n (l.take i) = some (l.get ⟨j, hj⟩).dirPath := by
      rw [← hget]
      refine firstDeclaringPath_eq_of_first n (l.take i) j hjt ?_ ?_
      · rw [hget]
        exact hdj
      · intro k hk hkj
        have hkl : k < l.length := by
          simp only [List.length_take] at hk
          omega
        have : (l.take i).get ⟨k, hk⟩ = l.get ⟨k, hkl⟩ := by
          simp [List.get_eq_getElem, List.getElem_take]
        rw [this]
        exact hfirst k hkl hkj
    have hseen : ((processSkills tf rr mode (l.take i) []).2.1).lookup n =
        some (l.get ⟨j, hj⟩).dirPath := by
      rw [processSkills_seen_lookup]
      simp [htake]
    exact validate_skill_dir_dup_mem tf rr mode (l.get ⟨i, hi⟩) _ hdi hseen


/-- Witness for `duplicate_name_first_registration`: the second skill's report
contains the duplicate-name error referencing the first skill's directory. -/
theorem duplicate_name_first_registration_witness :
    (⟨"error", dupSkillB.dirPath ++ "/SKILL.md",
      Msg.duplicateName "dup-one" dupSkillA.dirPath⟩ : Issue) ∈
      ((processSkills (fun _ => true) "repo" Mode.fast [dupSkillA, dupSkillB] []).1.get
        ⟨1, by decide⟩).issues :=
  (duplicate_name_first_registration (fun _ => true) "repo" Mode.fast [dupSkillA, dupSkillB]
    "dup-one" 1 0 (by decide) (by decide) (by decide) (by decide) (by decide)
    (fun k _ hk0 => absurd hk0 (Nat.not_lt_zero k))).2 (by decide)

/-- C10: skills are validated in sorted path order, so two runs over the
same filesystem state (the same set of discovered skills, in any discovery
order, with distinct directory paths) produce identical outcomes; and a skill
whose duplicate-name error references another path references the
lexicographically least directory declaring that name. -/
theorem sorted_order_determinism (tf : String → Bool) (rr : String) (rootExists : Bool)
    (args : Args) (l1 l2 : List SkillInput) (hperm : l1.Perm l2)
    (hnd : (l1.map SkillInput.dirPath).Nodup) :
    validate_skills_main ⟨rootExists, l1, tf, rr⟩ args =
      validate_skills_main ⟨rootExists, l2, tf, rr⟩ args ∧
    (∀ n i (hi : i < (sortSkills l1).length)
        (hi2 : i < (processSkills tf rr args.mode (sortSkills l1) []).1.length),
      declaredName ((sortSkills l1).get ⟨i, hi⟩) = some n →
      (∃ j, ∃ hj : j < (sortSkills l1).length, j < i ∧
        declaredName ((sortSkills l1).get ⟨j, hj⟩) = some n) →
      ∃ p, (⟨"error", ((sortSkills l1).get ⟨i, hi⟩).dirPath ++ "/SKILL.md",
          Msg.duplicateName n p⟩ : Issue) ∈
          ((processSkills tf rr args.mode (sortSkills l1) []).1.get ⟨i, hi2⟩).issues ∧
        (∃ s ∈ l1, declaredName s = some n ∧ s.dirPath = p) ∧
        (∀ s ∈ l1, declaredName s = some n → p ≤ s.dirPath)) := by
  constructor
  · have hs : sortSkills l1 = sortSkills l2 := sortSkills_eq_of_perm l1 l2 hperm hnd
    dsimp only [validate_skills_main]
    rw [hs]
  · intro n i hi hi2 hdecl hex
    obtain ⟨j, hj, hji, hdj⟩ := hex
    have hjt : j < ((sortSkills l1).take i).length := by
      simp only [List.length_take]
      omega
    have hget : ((sortSkills l1).take i).get ⟨j, hjt⟩ = (sortSkills l1).get ⟨j, hj⟩ := by
      simp [List.get_eq_getElem, List.getElem_take]
    have hmem : ∃ s ∈ (sortSkills l1).take i, declaredName s = some n :=
      ⟨((sortSkills l1).take i).get ⟨j, hjt⟩, List.get_mem _ _ _, by rw [hget]; exact hdj⟩
    obtain ⟨p, hp⟩ := firstDeclaringPath_isSome n ((sortSkills l1).take i) hmem
    refine ⟨p, ?_, ?_, ?_⟩
    · rw [processSkills_get tf rr args.mode (sortSkills l1) [] i hi hi2]
      refine validate_skill_dir_dup_mem tf rr args.mode ((sortSkills l1).get ⟨i, hi⟩) _
        hdecl ?_
      rw [processSkills_seen_lookup]
      simp [hp]
    · obtain ⟨s, hs, hd, hdp⟩ := firstDeclaringPath_mem n ((sortSkills l1).take i) p hp
      exact ⟨s, (sortSkills_perm l1).mem_iff.mp (List.take_subset i (sortSkills l1) hs),
        hd, hdp⟩
    · intro s hs hd
      have hfull : firstDeclaringPath n (sortSkills l1) = some p :=
        firstDeclaringPath_take n (sortSkills l1) i p hp
      exact firstDeclaringPath_min n (sortSkills l1) p (sortSkills_sorted l1) hfull s
        ((sortSkills_perm l1).mem_iff.mpr hs) hd

/-- Witness for `sorted_order_determinism`: two discovery orders of the same
two skills produce the same outcome. -/
theorem sorted_order_determinism_witness :
    validate_skills_main ⟨true, [dupSkillA, dupSkillB], fun _ => true, "repo"⟩
        ⟨Mode.fast, false, false⟩ =
      validate_skills_main ⟨true, [dupSkillB, dupSkillA], fun _ => true, "repo"⟩
        ⟨Mode.fast, false, false⟩ :=
  (sorted_order_determinism (fun _ => true) "repo" true ⟨Mode.fast, false, false⟩
    [dupSkillA, dupSkillB] [dupSkillB, dupSkillA]
    (List.Perm.swap dupSkillB dupSkillA []) (by decide)).1
